import Mathlib

/-!
Verification of the umbrella workspace-provisioning scripts.

The development shallowly embeds the two manager scripts (the zip-variant
manager and the install-tracking variant) and the dev-session launcher.
External processes (curl, unzip, git, npm) are abstracted by a `World` of
oracles that say whether each invocation would succeed; the filesystem is a
record of directory names under the workspace repos root, the set of names
carrying version-control metadata, the set of names with a node_modules
directory, and the set of scratch directories under the project root.
A `Proc` value threads the filesystem together with the process-exit flag
(`process.exit` is modelled as setting `exited`; every later operation on an
exited process is the identity, matching a terminated process).
-/

namespace Umbrella

/-- Fixed repository names from the scripts. -/
def CHIPPER : String := "chipper"

def PERENNIAL_ALIAS : String := "perennial-alias"

def PERENNIAL_REPO : String := "perennial"

def DEFAULT_OWNER : String := "phetsims"

def TOOLING_BRANCH : String := "packagelock-umbrella-1"

/-- One entry of the sims manifest, as built by `loadManifest`. -/
structure SimConfig where
  sim : String
  liveRepo : String
  deps : List String
deriving Repr, DecidableEq

/-- The loaded manifest: a key-to-entry mapping (JS `Map` after `loadManifest`). -/
abbrev Manifest := List (String × SimConfig)

/-- `resolveSimConfig(manifest, simName)`: the entry for `simName` when present;
otherwise the synthesized default entry, together with a flag recording that the
unrecognized-key warning was logged. -/
def resolveSimConfig (manifest : Manifest) (simName : String) : SimConfig × Bool :=
  match manifest.lookup simName with
  | some c => (c, false)
  | none => ({ sim := simName, liveRepo := simName, deps := [] }, true)

/-- Parse outcome of one of the consumed JSON configuration files
(`chipper/build.json` or a package.json), projected onto the checks the
readers perform: file absent; unreadable or malformed JSON; JSON that parses
but whose target field is not an array; or the target array itself. -/
inductive ConfigFile where
  | absent
  | malformed
  | parsedOther
  | parsedLibs (libs : List String)
deriving Repr, DecidableEq

/-- `readCommonPhetLibs()` of the zip-variant manager: the common list from
`chipper/build.json`, with a flag recording whether a warning was logged
(missing file, or read/parse failure). -/
def readCommonPhetLibs (f : ConfigFile) : List String × Bool :=
  match f with
  | .absent => ([], true)
  | .malformed => ([], true)
  | .parsedOther => ([], false)
  | .parsedLibs libs => (libs, false)

/-- `readSimPhetLibs(repoName)` of the zip-variant manager. -/
def readSimPhetLibs (f : ConfigFile) : List String × Bool :=
  match f with
  | .absent => ([], true)
  | .malformed => ([], true)
  | .parsedOther => ([], false)
  | .parsedLibs libs => (libs, false)

/-- `readChipperCommonLibs()` of the install-tracking variant (same value,
no warning on an absent file). -/
def readChipperCommonLibs (f : ConfigFile) : List String :=
  match f with
  | .parsedLibs libs => libs
  | _ => []

/-- `readSimLibs(simName)` of the install-tracking variant. -/
def readSimLibs (f : ConfigFile) : List String :=
  match f with
  | .parsedLibs libs => libs
  | _ => []

/-- Filesystem state visible to the scripts: names of subdirectories of the
repos root, names among them holding version-control metadata (`.git`),
names holding a `node_modules` directory, and leftover scratch directories
under the project root. -/
structure FS where
  dirs : List String
  git : List String
  nodeModules : List String
  tmp : List String
deriving Repr, DecidableEq

/-- Oracles for the external processes and the fixed file contents: whether a
given download URL succeeds, whether unzip succeeds and the archive holds a
top-level directory for a given destination, whether a clone of a given repo
succeeds, whether npm succeeds in a given directory, the content of
`chipper/build.json`, and the content of each package.json (effective once
the owning directory is present). -/
structure World where
  curlOk : String → Bool
  unzipOk : String → Bool
  zipHasDir : String → Bool
  cloneOk : String → Bool
  npmOk : String → Bool
  hasLock : String → Bool
  build : ConfigFile
  pkg : String → ConfigFile
  statusOk : String → Bool
  pullOk : String → Bool
  pushOk : String → Bool

/-- Process state threaded through a command: the filesystem, the exit flag
(`some code` once `process.exit(code)` ran), the number of successful
repository fetches (completed downloads or clones), the number of external
invocations, and the pre-existing destination directories that were removed. -/
structure Proc where
  fs : FS
  exited : Option Nat
  fetched : Nat
  calls : Nat
  removed : List String
deriving Repr, DecidableEq

/-- The first URL template tried by `ensureZipRepo` for a branch. -/
def zipUrl (owner repoName b : String) : String :=
  "https://github.com/" ++ owner ++ "/" ++ repoName ++ "/archive/refs/heads/" ++ b ++ ".zip"

/-- The second URL template tried by `ensureZipRepo` for a branch. -/
def apiZipUrl (owner repoName b : String) : String :=
  "https://api.github.com/repos/" ++ owner ++ "/" ++ repoName ++ "/zipball/" ++ b

/-- The ordered candidate URL list of `ensureZipRepo`: the given branch only
when one is supplied, else main then master, each through both templates. -/
def candidateUrls (repoName owner : String) (branch : Option String) : List String :=
  let branches := match branch with
    | some b => [b]
    | none => ["main", "master"]
  branches.flatMap (fun b => [zipUrl owner repoName b, apiZipUrl owner repoName b])

/-- The download loop of `ensureZipRepo`: try each candidate in order until one
curl invocation succeeds. Returns the number of attempts made and whether one
succeeded. -/
def firstDownload (w : World) : List String → Nat × Bool
  | [] => (0, false)
  | u :: us =>
    if w.curlOk u then (1, true)
    else
      let r := firstDownload w us
      (r.1 + 1, r.2)

/-- Name of the scratch directory `mkdtempSync` creates under the project root. -/
def tmpName (destName : String) : String := ".tmp-umbrella-" ++ destName

/-- `ensureZipRepo(repoName, owner, destName, branch)` of the zip-variant
manager. Early return when the destination directory exists. Otherwise a
scratch directory is created, each candidate URL is tried in order, and on
total download failure, on unzip failure, or on empty archive contents the
process exits with code 1 from inside the try block, so the cleanup in the
finally block never runs and the scratch directory stays behind. On success
the unpacked directory is renamed into place and the scratch directory is
removed by the finally block. -/
def ensureZipRepoP (w : World) (p : Proc) (repoName owner destName : String)
    (branch : Option String) : Proc :=
  match p.exited with
  | some _ => p
  | none =>
    if p.fs.dirs.contains destName then p
    else
      let cands := candidateUrls repoName owner branch
      let t := tmpName destName
      let fsT : FS := { p.fs with tmp := p.fs.tmp ++ [t] }
      let dl := firstDownload w cands
      if !dl.2 then
        { p with fs := fsT, exited := some 1, calls := p.calls + dl.1 }
      else if !(w.unzipOk destName) then
        { p with fs := fsT, exited := some 1, calls := p.calls + dl.1 + 1,
                 fetched := p.fetched + 1 }
      else if !(w.zipHasDir destName) then
        { p with fs := fsT, exited := some 1, calls := p.calls + dl.1 + 1,
                 fetched := p.fetched + 1 }
      else
        let fsDone : FS := { fsT with dirs := fsT.dirs ++ [destName] }
        let fsClean : FS := { fsDone with tmp := fsDone.tmp.erase t }
        { p with fs := fsClean, calls := p.calls + dl.1 + 1, fetched := p.fetched + 1 }

/-- `ensureLiveRepo(repoName, owner)` of the zip-variant manager. Early return
when the destination holds version-control metadata. Otherwise the existing
destination (if any) is force-removed and a shallow single-branch clone is
attempted; clone failure exits the process with code 1. -/
def ensureLiveRepoP (w : World) (p : Proc) (repoName : String) : Proc :=
  match p.exited with
  | some _ => p
  | none =>
    if p.fs.git.contains repoName then p
    else
      let removedNow := if p.fs.dirs.contains repoName then [repoName] else []
      let fsRm : FS := { p.fs with
        dirs := p.fs.dirs.filter (fun n => n ≠ repoName),
        git := p.fs.git.filter (fun n => n ≠ repoName),
        nodeModules := p.fs.nodeModules.filter (fun n => n ≠ repoName) }
      if w.cloneOk repoName then
        { p with
          fs := { fsRm with dirs := fsRm.dirs ++ [repoName], git := fsRm.git ++ [repoName] },
          calls := p.calls + 1, fetched := p.fetched + 1,
          removed := p.removed ++ removedNow }
      else
        { p with fs := fsRm, exited := some 1, calls := p.calls + 1,
                 removed := p.removed ++ removedNow }

/-- Whether the package.json of a repo directory exists: the directory must be
present and the package file content must not be absent. -/
def hasPkgFile (w : World) (fs : FS) (name : String) : Bool :=
  fs.dirs.contains name &&
    (match w.pkg name with
     | ConfigFile.absent => false
     | _ => true)

/-- `npmInstallIfNeeded(name)` of the zip-variant manager: no-op when the
directory is absent, has no package.json, or already holds node_modules;
otherwise runs the package manager once, fatally on non-zero exit. -/
def npmInstallIfNeededP (w : World) (p : Proc) (name : String) : Proc :=
  match p.exited with
  | some _ => p
  | none =>
    if !(p.fs.dirs.contains name) then p
    else if !(hasPkgFile w p.fs name) then p
    else if p.fs.nodeModules.contains name then p
    else if w.npmOk name then
      { p with fs := { p.fs with nodeModules := p.fs.nodeModules ++ [name] },
               calls := p.calls + 1 }
    else
      { p with exited := some 1, calls := p.calls + 1 }

/-- Effective content of `chipper/build.json`: absent unless the chipper
directory is present. -/
def buildFileAt (w : World) (fs : FS) : ConfigFile :=
  if fs.dirs.contains CHIPPER then w.build else ConfigFile.absent

/-- Effective content of `repos/<name>/package.json`: absent unless the
directory is present. -/
def pkgFileAt (w : World) (fs : FS) (name : String) : ConfigFile :=
  if fs.dirs.contains name then w.pkg name else ConfigFile.absent

/-- `Set.add` of the JS runtime on a set represented as its insertion-ordered,
duplicate-free element list. -/
def jsSetAdd (s : List String) (x : String) : List String :=
  if s.contains x then s else s ++ [x]

/-- `new Set(list)` of the JS runtime: insertion-ordered deduplication. -/
def jsSetOfList (l : List String) : List String := l.foldl jsSetAdd []

/-- Result of `addSim`: the final process state and the `zipRepos` list of
names acquired as snapshots in the final step. -/
structure AddSimRes where
  proc : Proc
  zipRepos : List String
deriving Repr, DecidableEq

/-- Step 7 of `addSim`: iterate the dependency set; for each name not in the
excluded set, ensure its snapshot and record it in `zipRepos`. A process exit
inside `ensureZipRepo` stops the iteration and the recording. -/
def zipFold (w : World) (excl : List String) : Proc → List String → Proc × List String
  | p, [] => (p, [])
  | p, r :: rs =>
    if excl.contains r then zipFold w excl p rs
    else
      let pAfter := ensureZipRepoP w p r DEFAULT_OWNER r none
      match pAfter.exited with
      | some _ => (pAfter, [])
      | none =>
        let rest := zipFold w excl pAfter rs
        (rest.1, r :: rest.2)

/-- Step 1 of `addSim`: fetch the two tooling snapshots on the tooling branch
and run the package-manager install in each. -/
def toolingStage (w : World) (p0 : Proc) : Proc :=
  npmInstallIfNeededP w
    (ensureZipRepoP w
      (npmInstallIfNeededP w
        (ensureZipRepoP w p0 CHIPPER DEFAULT_OWNER CHIPPER (some TOOLING_BRANCH))
        CHIPPER)
      PERENNIAL_REPO DEFAULT_OWNER PERENNIAL_ALIAS (some TOOLING_BRANCH))
    PERENNIAL_ALIAS

/-- Step 3 of `addSim`: fetch the sim itself, as a snapshot when its live repo
differs from the sim name, else as a live clone. -/
def simFetchStage (w : World) (p : Proc) (simName liveRepo : String) : Proc :=
  if liveRepo ≠ simName then ensureZipRepoP w p simName DEFAULT_OWNER simName none
  else ensureLiveRepoP w p simName

/-- Step 6 of `addSim`: when the live repo differs from the sim, clone it and
fold its own dependency list into the union set. -/
def liveStage (w : World) (p : Proc) (simName liveRepo : String) (allDeps0 : List String) :
    Proc × List String :=
  if liveRepo ≠ simName then
    let p6 := ensureLiveRepoP w p liveRepo
    let liveRepoPhetLibs := (readSimPhetLibs (pkgFileAt w p6.fs liveRepo)).1
    (p6, liveRepoPhetLibs.foldl jsSetAdd allDeps0)
  else (p, allDeps0)

/-- The body of `addSim` after the empty-name check, with the live repo name
already resolved from the manifest. -/
def addSimBody (w : World) (p0 : Proc) (simName liveRepo : String) : AddSimRes :=
  let p4 := toolingStage w p0
  let commonPhetLibs := (readCommonPhetLibs (buildFileAt w p4.fs)).1
  let p5 := simFetchStage w p4 simName liveRepo
  let simPhetLibs := (readSimPhetLibs (pkgFileAt w p5.fs simName)).1
  let excludeFromZip := jsSetOfList [CHIPPER, PERENNIAL_ALIAS, PERENNIAL_REPO, simName, liveRepo]
  let allDeps0 := jsSetOfList (commonPhetLibs ++ simPhetLibs)
  let stage6 := liveStage w p5 simName liveRepo allDeps0
  let final := zipFold w excludeFromZip stage6.1 stage6.2
  { proc := final.1, zipRepos := final.2 }

/-- `addSim(simName)` of the zip-variant manager: resolve the manifest entry,
fetch the tooling snapshots and install them, read the common list, fetch the
sim (snapshot when its live repo differs, else live), read the sim list,
build the union set, clone the live repo and fold in its own list when it
differs from the sim, then acquire every non-excluded member as a snapshot. -/
def addSimP (w : World) (fs0 : FS) (manifest : Manifest) (simName : String) : AddSimRes :=
  let p0 : Proc := { fs := fs0, exited := none, fetched := 0, calls := 0, removed := [] }
  if simName = "" then
    { proc := { p0 with exited := some 1 }, zipRepos := [] }
  else
    addSimBody w p0 simName ((resolveSimConfig manifest simName).1).liveRepo

/-- `findGitRepos()`: the subdirectories of the repos root that carry
version-control metadata, in directory-listing order. -/
def findGitRepos (fs : FS) : List String :=
  fs.dirs.filter (fun n => fs.git.contains n)

/-- The per-directory loop shared by `statusAll`, `pullAll` and `pushAll` of
the zip-variant manager: `run` exits the process on the first non-zero
command status, whatever error message was supplied, so later directories are
not visited. Returns the visited directories and the exit flag. -/
def runAllFatal (ok : String → Bool) : List String → List String × Option Nat
  | [] => ([], none)
  | r :: rs =>
    if ok r then
      let rest := runAllFatal ok rs
      (r :: rest.1, rest.2)
    else ([r], some 1)

/-- `statusAll()` of the zip-variant manager. -/
def statusAll (w : World) (fs : FS) : List String × Option Nat :=
  runAllFatal w.statusOk (findGitRepos fs)

/-- `pullAll()` of the zip-variant manager. -/
def pullAll (w : World) (fs : FS) : List String × Option Nat :=
  runAllFatal w.pullOk (findGitRepos fs)

/-- `pushAll()` of the zip-variant manager. -/
def pushAll (w : World) (fs : FS) : List String × Option Nat :=
  runAllFatal w.pushOk (findGitRepos fs)

/-- A directory of the repos root in live form: present with `.git`. -/
def liveForm (fs : FS) (n : String) : Prop := n ∈ fs.dirs ∧ n ∈ fs.git

/-- A directory of the repos root in snapshot form: present without `.git`. -/
def snapshotForm (fs : FS) (n : String) : Prop := n ∈ fs.dirs ∧ n ∉ fs.git

/-- Well-formed filesystem: version-control metadata only inside a present
directory (a `.git` subdirectory cannot exist without its parent). -/
def FS.WF (fs : FS) : Prop := ∀ x ∈ fs.git, x ∈ fs.dirs

/-- A JSON value, for the persisted installed-sims file. -/
inductive JVal where
  | null
  | bool (b : Bool)
  | num (n : Int)
  | str (s : String)
  | arr (xs : List JVal)
  | obj (fields : List (String × JVal))

/-- Whether a JSON value is a string. -/
def JVal.isStr : JVal → Bool
  | .str _ => true
  | _ => false

/-- State of the installed-sims file as seen by `readInstalled`: absent,
unreadable, or readable content together with the outcome of `JSON.parse`
(`none` when parsing throws). -/
inductive InstFile where
  | absent
  | unreadable
  | content (parsed : Option JVal)

/-- `readInstalled()` of the install-tracking variant: the parsed top-level
array when reading and parsing succeed and the value is an array, the empty
list in every other case. The read and parse are wrapped in try/catch, so the
operation never raises. -/
def readInstalled (f : InstFile) : List JVal :=
  match f with
  | .absent => []
  | .unreadable => []
  | .content none => []
  | .content (some (JVal.arr xs)) => xs
  | .content (some _) => []

/-- The string sort performed by `writeInstalled` (default JS array sort). -/
def jsSortStrings (l : List String) : List String :=
  l.mergeSort (fun a b => a ≤ b)

/-- `writeInstalled(list)`: deduplicate through a JS Set, then sort. -/
def writeInstalled (list : List String) : List String :=
  jsSortStrings (jsSetOfList list)

/-- The installed-sims file produced by `writeInstalled`: a JSON array of the
deduplicated, sorted keys. -/
def writeInstalledFile (list : List String) : InstFile :=
  .content (some (.arr ((writeInstalled list).map JVal.str)))

/-- The filtered installed list computed by `remove-sim`. -/
def removeSimNext (installed : List String) (simName : String) : List String :=
  installed.filter (fun name => name ≠ simName)

/-- `listSims()` of the install-tracking variant: the entries of the
installed-sims file as read back by `readInstalled`. -/
def listSims (f : InstFile) : List JVal := readInstalled f

/-- `computeRequiredRepos(installedSims)` of the install-tracking variant:
a JS Set seeded with the tooling names, extended with the common libs from
`chipper/build.json`, then per remaining sim with the sim itself and its own
libs, represented as the insertion-ordered element list. -/
def computeRequiredRepos (w : World) (fs : FS) (installedSims : List String) : List String :=
  let required := jsSetOfList [CHIPPER, PERENNIAL_ALIAS]
  let required := (readChipperCommonLibs (buildFileAt w fs)).foldl jsSetAdd required
  installedSims.foldl
    (fun req sim => (readSimLibs (pkgFileAt w fs sim)).foldl jsSetAdd (jsSetAdd req sim))
    required

/-- Result of `pruneRepos`: the filesystem afterwards, and the names deleted. -/
structure PruneRes where
  fs : FS
  deleted : List String
deriving Repr, DecidableEq

/-- `pruneRepos(requiredSet)` of the install-tracking variant: delete every
subdirectory of the repos root whose name is not in the required set. -/
def pruneRepos (fs : FS) (requiredSet : List String) : PruneRes :=
  { fs := { fs with
      dirs := fs.dirs.filter (fun n => requiredSet.contains n),
      git := fs.git.filter (fun n => requiredSet.contains n),
      nodeModules := fs.nodeModules.filter (fun n => requiredSet.contains n) },
    deleted := fs.dirs.filter (fun n => !(requiredSet.contains n)) }

/-- A world where every external invocation succeeds and every configuration
file parses without the dependency field. -/
def allOkWorld : World :=
  { curlOk := fun _ => true, unzipOk := fun _ => true, zipHasDir := fun _ => true,
    cloneOk := fun _ => true, npmOk := fun _ => true, hasLock := fun _ => false,
    build := ConfigFile.parsedOther, pkg := fun _ => ConfigFile.parsedOther,
    statusOk := fun _ => true, pullOk := fun _ => true, pushOk := fun _ => true }

/-- A world where every download candidate fails. -/
def failDlWorld : World := { allOkWorld with curlOk := fun _ => false }

/-- The empty workspace. -/
def fsEmpty : FS := { dirs := [], git := [], nodeModules := [], tmp := [] }

/-- A fresh process over the empty workspace. -/
def procEmpty : Proc := { fs := fsEmpty, exited := none, fetched := 0, calls := 0, removed := [] }

/-- A world where only the repo named b declares a dependency list (the single
name x); all external invocations succeed. -/
def liveDepWorld : World :=
  { allOkWorld with
    pkg := fun n => if n = "b" then ConfigFile.parsedLibs ["x"] else ConfigFile.parsedOther }

/-- A manifest mapping sim a to live repo b with no manifest deps. -/
def liveDepManifest : Manifest := [("a", { sim := "a", liveRepo := "b", deps := [] })]

/-- A world with a malformed chipper/build.json, where the repo my-sim
declares the dependency dep1 and every external invocation succeeds. -/
def malformedBuildWorld : World :=
  { allOkWorld with
    build := ConfigFile.malformed,
    pkg := fun n => if n = "my-sim" then ConfigFile.parsedLibs ["dep1"]
      else ConfigFile.parsedOther }

/-- A workspace holding two live clones, a then b. -/
def fsTwoLive : FS := { dirs := ["a", "b"], git := ["a", "b"], nodeModules := [], tmp := [] }

/-- A world where the version-control status command fails in directory a and
succeeds elsewhere. -/
def statusFailWorld : World := { allOkWorld with statusOk := fun n => n != "a" }

/-- A workspace holding one snapshot-form directory named foo. -/
def fsSnapFoo : FS := { dirs := ["foo"], git := [], nodeModules := [], tmp := [] }

/-- A fresh process over the workspace holding the snapshot foo. -/
def procSnapFoo : Proc :=
  { fs := fsSnapFoo, exited := none, fetched := 0, calls := 0, removed := [] }

/-- All external-invocation oracles of a world succeed. -/
def AllOk (w : World) : Prop :=
  (∀ u, w.curlOk u = true) ∧ (∀ n, w.unzipOk n = true) ∧ (∀ n, w.zipHasDir n = true) ∧
    (∀ n, w.cloneOk n = true) ∧ (∀ n, w.npmOk n = true)

/-- The resolved live-repo name used by `addSim`. -/
def liveRepoOf (m : Manifest) (s : String) : String := ((resolveSimConfig m s).1).liveRepo

/-- The common dependency list `addSim` reads once chipper is present. -/
def commonList (w : World) : List String := (readCommonPhetLibs w.build).1

/-- The dependency list of a repo that `addSim` reads once the repo is present. -/
def simListOf (w : World) (s : String) : List String := (readSimPhetLibs (w.pkg s)).1

/-- The live-repo dependency list folded in by `addSim` when the live repo
differs from the sim. -/
def liveListOf (w : World) (m : Manifest) (s : String) : List String :=
  if liveRepoOf m s ≠ s then simListOf w (liveRepoOf m s) else []

/-- The excluded-name set of `addSim` step 5. -/
def exclListOf (m : Manifest) (s : String) : List String :=
  jsSetOfList [CHIPPER, PERENNIAL_ALIAS, PERENNIAL_REPO, s, liveRepoOf m s]

/-- The snapshot list a completed `addSim` run acquires in its final step. -/
def expectedZipRepos (w : World) (m : Manifest) (s : String) : List String :=
  ((liveListOf w m s).foldl jsSetAdd (jsSetOfList (commonList w ++ simListOf w s))).filter
    (fun r => !((exclListOf m s).contains r))

end Umbrella

namespace Launcher

/-- The JS expression `code || d` for a nullable numeric exit code: `null` and
`0` are falsy. -/
def jsOr (code : Option Int) (d : Int) : Int :=
  match code with
  | none => d
  | some c => if c = 0 then d else c

/-- `shutdown(code)` of the dev-session launcher: send SIGTERM to both child
processes and exit with the given status. The model records the exit status. -/
def shutdown (code : Int) : Int := code

/-- The `exit` handler installed on the watcher child: when the watcher was
terminated by SIGTERM the launcher shuts down with `code || 0` (and a
signal-terminated child reports a null code); otherwise a non-zero code shuts
down with `code || 1`; a zero code does nothing. Returns the launcher exit
status when the handler exits the process. -/
def watchExitHandler (code : Option Int) (signal : Option String) : Option Int :=
  if signal = some "SIGTERM" then some (shutdown (jsOr code 0))
  else if code ≠ some 0 then some (shutdown (jsOr code 1))
  else none

/-- The `exit` handler installed on the dev-server child: a non-zero code
shuts down with `code || 1`. -/
def devServerExitHandler (code : Option Int) : Option Int :=
  if code ≠ some 0 then some (shutdown (jsOr code 1)) else none

end Launcher

namespace Umbrella

theorem contains_iff (l : List String) (x : String) : l.contains x = true ↔ x ∈ l := by
  simp [List.contains]

theorem mem_jsSetAdd {s : List String} {y x : String} :
    x ∈ jsSetAdd s y ↔ x ∈ s ∨ x = y := by
  unfold jsSetAdd
  by_cases h : s.contains y = true
  · simp only [h, if_true]
    refine ⟨Or.inl, ?_⟩
    rintro (hx | rfl)
    · exact hx
    · exact (contains_iff s x).mp h
  · simp only [h]
    simp [List.mem_append]

theorem nodup_jsSetAdd {s : List String} {y : String} (h : s.Nodup) :
    (jsSetAdd s y).Nodup := by
  unfold jsSetAdd
  by_cases hc : s.contains y = true
  · simp only [hc, if_true]
    exact h
  · simp only [hc]
    simp only [Bool.false_eq_true, if_false]
    rw [List.nodup_append]
    refine ⟨h, List.nodup_singleton y, ?_⟩
    intro a ha hb
    rw [List.mem_singleton] at hb
    subst hb
    exact hc ((contains_iff s a).mpr ha)

theorem mem_foldl_jsSetAdd (l : List String) (s : List String) (x : String) :
    x ∈ l.foldl jsSetAdd s ↔ x ∈ s ∨ x ∈ l := by
  induction l generalizing s with
  | nil => simp
  | cons y ys ih =>
    simp only [List.foldl_cons, ih, mem_jsSetAdd, List.mem_cons]
    tauto

theorem nodup_foldl_jsSetAdd (l : List String) (s : List String) (h : s.Nodup) :
    (l.foldl jsSetAdd s).Nodup := by
  induction l generalizing s with
  | nil => exact h
  | cons y ys ih => exact ih _ (nodup_jsSetAdd h)

theorem mem_jsSetOfList {l : List String} {x : String} : x ∈ jsSetOfList l ↔ x ∈ l := by
  unfold jsSetOfList
  rw [mem_foldl_jsSetAdd]
  simp

theorem nodup_jsSetOfList (l : List String) : (jsSetOfList l).Nodup :=
  nodup_foldl_jsSetAdd l [] List.nodup_nil

end Umbrella

namespace Umbrella

theorem ensureZip_exited_some {w : World} {p : Proc} {rn ow dn : String} {br : Option String}
    {c : Nat} (h : p.exited = some c) : ensureZipRepoP w p rn ow dn br = p := by
  unfold ensureZipRepoP
  rw [h]

theorem ensureZip_exited_none_of {w : World} {p : Proc} {rn ow dn : String} {br : Option String}
    (h : (ensureZipRepoP w p rn ow dn br).exited = none) : p.exited = none := by
  cases hp : p.exited with
  | none => rfl
  | some c =>
    rw [ensureZip_exited_some hp, hp] at h
    exact absurd h (by simp)

theorem ensureZip_skip {w : World} {p : Proc} {rn ow dn : String} {br : Option String}
    (hp : p.exited = none) (hdn : dn ∈ p.fs.dirs) :
    ensureZipRepoP w p rn ow dn br = p := by
  simp [ensureZipRepoP, hp, hdn]

theorem ensureZip_post {w : World} {p : Proc} {rn ow dn : String} {br : Option String}
    (h : (ensureZipRepoP w p rn ow dn br).exited = none) :
    dn ∈ (ensureZipRepoP w p rn ow dn br).fs.dirs := by
  have hp : p.exited = none := ensureZip_exited_none_of h
  by_cases hdn : dn ∈ p.fs.dirs
  · rw [ensureZip_skip hp hdn]
    exact hdn
  · cases h1 : (firstDownload w (candidateUrls rn ow br)).2 with
    | false => exfalso; simp [ensureZipRepoP, hp, hdn, h1] at h
    | true =>
      cases h2 : w.unzipOk dn with
      | false => exfalso; simp [ensureZipRepoP, hp, hdn, h1, h2] at h
      | true =>
        cases h3 : w.zipHasDir dn with
        | false => exfalso; simp [ensureZipRepoP, hp, hdn, h1, h2, h3] at h
        | true => simp [ensureZipRepoP, hp, hdn, h1, h2, h3]

theorem ensureZip_mem_dirs_mono {w : World} {p : Proc} {rn ow dn x : String}
    {br : Option String} (hx : x ∈ p.fs.dirs) :
    x ∈ (ensureZipRepoP w p rn ow dn br).fs.dirs := by
  cases hpe : p.exited with
  | some c => rw [ensureZip_exited_some hpe]; exact hx
  | none =>
    by_cases hdn : dn ∈ p.fs.dirs
    · rw [ensureZip_skip hpe hdn]; exact hx
    · cases h1 : (firstDownload w (candidateUrls rn ow br)).2 with
      | false => simp [ensureZipRepoP, hpe, hdn, h1, hx]
      | true =>
        cases h2 : w.unzipOk dn with
        | false => simp [ensureZipRepoP, hpe, hdn, h1, h2, hx]
        | true =>
          cases h3 : w.zipHasDir dn with
          | false => simp [ensureZipRepoP, hpe, hdn, h1, h2, h3, hx]
          | true => simp [ensureZipRepoP, hpe, hdn, h1, h2, h3, hx]

theorem ensureZip_removed {w : World} {p : Proc} {rn ow dn : String} {br : Option String} :
    (ensureZipRepoP w p rn ow dn br).removed = p.removed := by
  cases hpe : p.exited with
  | some c => rw [ensureZip_exited_some hpe]
  | none =>
    by_cases hdn : dn ∈ p.fs.dirs
    · rw [ensureZip_skip hpe hdn]
    · cases h1 : (firstDownload w (candidateUrls rn ow br)).2 with
      | false => simp [ensureZipRepoP, hpe, hdn, h1]
      | true =>
        cases h2 : w.unzipOk dn with
        | false => simp [ensureZipRepoP, hpe, hdn, h1, h2]
        | true =>
          cases h3 : w.zipHasDir dn with
          | false => simp [ensureZipRepoP, hpe, hdn, h1, h2, h3]
          | true => simp [ensureZipRepoP, hpe, hdn, h1, h2, h3]

theorem ensureZip_fetched_le {w : World} {p : Proc} {rn ow dn : String} {br : Option String} :
    (ensureZipRepoP w p rn ow dn br).fetched ≤ p.fetched + 1 := by
  cases hpe : p.exited with
  | some c => rw [ensureZip_exited_some hpe]; omega
  | none =>
    by_cases hdn : dn ∈ p.fs.dirs
    · rw [ensureZip_skip hpe hdn]; omega
    · cases h1 : (firstDownload w (candidateUrls rn ow br)).2 with
      | false => simp [ensureZipRepoP, hpe, hdn, h1]
      | true =>
        cases h2 : w.unzipOk dn with
        | false => simp [ensureZipRepoP, hpe, hdn, h1, h2]
        | true =>
          cases h3 : w.zipHasDir dn with
          | false => simp [ensureZipRepoP, hpe, hdn, h1, h2, h3]
          | true => simp [ensureZipRepoP, hpe, hdn, h1, h2, h3]

end Umbrella

namespace Umbrella

theorem ensureLive_exited_some {w : World} {p : Proc} {rn : String} {c : Nat}
    (h : p.exited = some c) : ensureLiveRepoP w p rn = p := by
  unfold ensureLiveRepoP
  rw [h]

theorem ensureLive_exited_none_of {w : World} {p : Proc} {rn : String}
    (h : (ensureLiveRepoP w p rn).exited = none) : p.exited = none := by
  cases hp : p.exited with
  | none => rfl
  | some c =>
    rw [ensureLive_exited_some hp, hp] at h
    exact absurd h (by simp)

theorem ensureLive_skip {w : World} {p : Proc} {rn : String}
    (hp : p.exited = none) (hg : rn ∈ p.fs.git) :
    ensureLiveRepoP w p rn = p := by
  simp [ensureLiveRepoP, hp, hg]

theorem ensureLive_post {w : World} {p : Proc} {rn : String} (hwf : p.fs.WF)
    (h : (ensureLiveRepoP w p rn).exited = none) :
    rn ∈ (ensureLiveRepoP w p rn).fs.dirs ∧ rn ∈ (ensureLiveRepoP w p rn).fs.git := by
  have hp : p.exited = none := ensureLive_exited_none_of h
  by_cases hg : rn ∈ p.fs.git
  · rw [ensureLive_skip hp hg]
    exact ⟨hwf rn hg, hg⟩
  · cases hc : w.cloneOk rn with
    | false => exfalso; simp [ensureLiveRepoP, hp, hg, hc] at h
    | true => constructor <;> simp [ensureLiveRepoP, hp, hg, hc]

theorem ensureLive_fetched_le {w : World} {p : Proc} {rn : String} :
    (ensureLiveRepoP w p rn).fetched ≤ p.fetched + 1 := by
  cases hpe : p.exited with
  | some c => rw [ensureLive_exited_some hpe]; omega
  | none =>
    by_cases hg : rn ∈ p.fs.git
    · rw [ensureLive_skip hpe hg]; omega
    · cases hc : w.cloneOk rn with
      | false => simp [ensureLiveRepoP, hpe, hg, hc]
      | true => simp [ensureLiveRepoP, hpe, hg, hc]

theorem ensureLive_removed_snapshot {w : World} {p : Proc} {rn : String}
    (hp : p.exited = none) (hd : rn ∈ p.fs.dirs) (hg : rn ∉ p.fs.git) :
    (ensureLiveRepoP w p rn).removed = p.removed ++ [rn] := by
  cases hc : w.cloneOk rn with
  | false => simp [ensureLiveRepoP, hp, hg, hc, hd]
  | true => simp [ensureLiveRepoP, hp, hg, hc, hd]

theorem npm_exited_some {w : World} {p : Proc} {n : String} {c : Nat}
    (h : p.exited = some c) : npmInstallIfNeededP w p n = p := by
  unfold npmInstallIfNeededP
  rw [h]

theorem npm_exited_none_of {w : World} {p : Proc} {n : String}
    (h : (npmInstallIfNeededP w p n).exited = none) : p.exited = none := by
  cases hp : p.exited with
  | none => rfl
  | some c =>
    rw [npm_exited_some hp, hp] at h
    exact absurd h (by simp)

theorem npm_dirs {w : World} {p : Proc} {n : String} :
    (npmInstallIfNeededP w p n).fs.dirs = p.fs.dirs := by
  cases hpe : p.exited with
  | some c => rw [npm_exited_some hpe]
  | none =>
    by_cases h1 : n ∈ p.fs.dirs
    · by_cases h2 : hasPkgFile w p.fs n = true
      · by_cases h3 : n ∈ p.fs.nodeModules
        · simp [npmInstallIfNeededP, hpe, h1, h2, h3]
        · cases h4 : w.npmOk n with
          | false => simp [npmInstallIfNeededP, hpe, h1, h2, h3, h4]
          | true => simp [npmInstallIfNeededP, hpe, h1, h2, h3, h4]
      · simp [npmInstallIfNeededP, hpe, h1, h2]
    · simp [npmInstallIfNeededP, hpe, h1]

end Umbrella

namespace Umbrella

theorem ensureZip_git_eq {w : World} {p : Proc} {rn ow dn : String} {br : Option String} :
    (ensureZipRepoP w p rn ow dn br).fs.git = p.fs.git := by
  cases hpe : p.exited with
  | some c => rw [ensureZip_exited_some hpe]
  | none =>
    by_cases hdn : dn ∈ p.fs.dirs
    · rw [ensureZip_skip hpe hdn]
    · cases h1 : (firstDownload w (candidateUrls rn ow br)).2 with
      | false => simp [ensureZipRepoP, hpe, hdn, h1]
      | true =>
        cases h2 : w.unzipOk dn with
        | false => simp [ensureZipRepoP, hpe, hdn, h1, h2]
        | true =>
          cases h3 : w.zipHasDir dn with
          | false => simp [ensureZipRepoP, hpe, hdn, h1, h2, h3]
          | true => simp [ensureZipRepoP, hpe, hdn, h1, h2, h3]

theorem ensureZip_WF {w : World} {p : Proc} {rn ow dn : String} {br : Option String}
    (hwf : p.fs.WF) : (ensureZipRepoP w p rn ow dn br).fs.WF := by
  intro x hx
  rw [ensureZip_git_eq] at hx
  exact ensureZip_mem_dirs_mono (hwf x hx)

theorem npm_git_eq {w : World} {p : Proc} {n : String} :
    (npmInstallIfNeededP w p n).fs.git = p.fs.git := by
  cases hpe : p.exited with
  | some c => rw [npm_exited_some hpe]
  | none =>
    by_cases h1 : n ∈ p.fs.dirs
    · by_cases h2 : hasPkgFile w p.fs n = true
      · by_cases h3 : n ∈ p.fs.nodeModules
        · simp [npmInstallIfNeededP, hpe, h1, h2, h3]
        · cases h4 : w.npmOk n with
          | false => simp [npmInstallIfNeededP, hpe, h1, h2, h3, h4]
          | true => simp [npmInstallIfNeededP, hpe, h1, h2, h3, h4]
      · simp [npmInstallIfNeededP, hpe, h1, h2]
    · simp [npmInstallIfNeededP, hpe, h1]

theorem npm_WF {w : World} {p : Proc} {n : String} (hwf : p.fs.WF) :
    (npmInstallIfNeededP w p n).fs.WF := by
  intro x hx
  rw [npm_git_eq] at hx
  rw [npm_dirs]
  exact hwf x hx

theorem ensureLive_WF {w : World} {p : Proc} {rn : String} (hwf : p.fs.WF) :
    (ensureLiveRepoP w p rn).fs.WF := by
  cases hpe : p.exited with
  | some c => rw [ensureLive_exited_some hpe]; exact hwf
  | none =>
    by_cases hg : rn ∈ p.fs.git
    · rw [ensureLive_skip hpe hg]; exact hwf
    · cases hc : w.cloneOk rn with
      | false =>
        intro x hx
        simp [ensureLiveRepoP, hpe, hg, hc] at hx ⊢
        exact ⟨hwf x hx.1, hx.2⟩
      | true =>
        intro x hx
        simp [ensureLiveRepoP, hpe, hg, hc] at hx ⊢
        rcases hx with ⟨hx1, hx2⟩ | hx
        · exact Or.inl ⟨hwf x hx1, hx2⟩
        · exact Or.inr hx

end Umbrella

namespace Umbrella

theorem toolingStage_exited_none_of {w : World} {p : Proc}
    (h : (toolingStage w p).exited = none) : p.exited = none :=
  ensureZip_exited_none_of
    (npm_exited_none_of (ensureZip_exited_none_of (npm_exited_none_of h)))

theorem toolingStage_WF {w : World} {p : Proc} (hwf : p.fs.WF) :
    (toolingStage w p).fs.WF :=
  npm_WF (ensureZip_WF (npm_WF (ensureZip_WF hwf)))

theorem toolingStage_chipper {w : World} {p : Proc}
    (h : (toolingStage w p).exited = none) :
    CHIPPER ∈ (toolingStage w p).fs.dirs := by
  unfold toolingStage at h ⊢
  have h3 := npm_exited_none_of h
  have h2 := ensureZip_exited_none_of h3
  have h1 : CHIPPER ∈
      (ensureZipRepoP w p CHIPPER DEFAULT_OWNER CHIPPER (some TOOLING_BRANCH)).fs.dirs :=
    ensureZip_post (npm_exited_none_of h2)
  rw [npm_dirs]
  have h1b : CHIPPER ∈
      (npmInstallIfNeededP w
        (ensureZipRepoP w p CHIPPER DEFAULT_OWNER CHIPPER (some TOOLING_BRANCH))
        CHIPPER).fs.dirs := by
    rw [npm_dirs]
    exact h1
  exact ensureZip_mem_dirs_mono h1b

theorem simFetchStage_exited_none_of {w : World} {p : Proc} {s lr : String}
    (h : (simFetchStage w p s lr).exited = none) : p.exited = none := by
  unfold simFetchStage at h
  by_cases hne : lr ≠ s
  · rw [if_pos hne] at h
    exact ensureZip_exited_none_of h
  · rw [if_neg hne] at h
    exact ensureLive_exited_none_of h

theorem simFetchStage_WF {w : World} {p : Proc} {s lr : String} (hwf : p.fs.WF) :
    (simFetchStage w p s lr).fs.WF := by
  unfold simFetchStage
  by_cases hne : lr ≠ s
  · rw [if_pos hne]
    exact ensureZip_WF hwf
  · rw [if_neg hne]
    exact ensureLive_WF hwf

theorem simFetchStage_post {w : World} {p : Proc} {s lr : String} (hwf : p.fs.WF)
    (h : (simFetchStage w p s lr).exited = none) :
    s ∈ (simFetchStage w p s lr).fs.dirs := by
  unfold simFetchStage at h ⊢
  by_cases hne : lr ≠ s
  · rw [if_pos hne] at h ⊢
    exact ensureZip_post h
  · rw [if_neg hne] at h ⊢
    exact (ensureLive_post hwf h).1

theorem liveStage_exited_none_of {w : World} {p : Proc} {s lr : String} {d0 : List String}
    (h : (liveStage w p s lr d0).1.exited = none) : p.exited = none := by
  unfold liveStage at h
  by_cases hne : lr ≠ s
  · rw [if_pos hne] at h
    exact ensureLive_exited_none_of h
  · rw [if_neg hne] at h
    exact h

theorem liveStage_snd {w : World} {p : Proc} {s lr : String} {d0 : List String} (hwf : p.fs.WF)
    (h : (liveStage w p s lr d0).1.exited = none) :
    (liveStage w p s lr d0).2 =
      (if lr ≠ s then (readSimPhetLibs (w.pkg lr)).1 else []).foldl jsSetAdd d0 := by
  simp only [liveStage] at h ⊢
  by_cases hne : lr ≠ s
  · rw [if_pos hne] at h ⊢
    rw [if_pos hne]
    have hmem : lr ∈ (ensureLiveRepoP w p lr).fs.dirs := (ensureLive_post hwf h).1
    have hpk : pkgFileAt w (ensureLiveRepoP w p lr).fs lr = w.pkg lr := by
      unfold pkgFileAt
      rw [if_pos ((contains_iff _ _).mpr hmem)]
    rw [hpk]
  · rw [if_neg hne] at h ⊢
    rw [if_neg hne]
    rfl

theorem zipFold_exited_none_of {w : World} {excl : List String} {p : Proc} {l : List String}
    (h : (zipFold w excl p l).1.exited = none) : p.exited = none := by
  induction l generalizing p with
  | nil => exact h
  | cons r rs ih =>
    simp only [zipFold] at h
    by_cases hr : excl.contains r = true
    · rw [if_pos hr] at h
      exact ih h
    · rw [if_neg hr] at h
      cases hA : (ensureZipRepoP w p r DEFAULT_OWNER r none).exited with
      | some c => simp [hA] at h
      | none =>
        simp only [hA] at h
        exact ensureZip_exited_none_of (ih h)

theorem zipFold_zips {w : World} {excl : List String} {p : Proc} {l : List String}
    (h : (zipFold w excl p l).1.exited = none) :
    (zipFold w excl p l).2 = l.filter (fun r => !(excl.contains r)) := by
  induction l generalizing p with
  | nil => rfl
  | cons r rs ih =>
    simp only [zipFold] at h ⊢
    cases hr : excl.contains r with
    | true =>
      rw [if_pos hr] at h
      rw [if_pos rfl, List.filter_cons, hr]
      simp only [Bool.not_true, Bool.false_eq_true, if_false]
      exact ih h
    | false =>
      have hrn : ¬(excl.contains r = true) := by
        rw [hr]
        exact Bool.false_ne_true
      rw [if_neg hrn] at h
      rw [if_neg Bool.false_ne_true]
      cases hA : (ensureZipRepoP w p r DEFAULT_OWNER r none).exited with
      | some c => simp [hA] at h
      | none =>
        simp only [hA] at h ⊢
        rw [List.filter_cons, hr]
        simp only [Bool.not_false, if_true]
        rw [ih h]

end Umbrella

namespace Umbrella

theorem candidateUrls_ne_nil {rn ow : String} {br : Option String} :
    candidateUrls rn ow br ≠ [] := by
  cases br with
  | none => simp [candidateUrls]
  | some b => simp [candidateUrls]

theorem firstDownload_true {w : World} (hc : ∀ u, w.curlOk u = true) :
    ∀ {l : List String}, l ≠ [] → (firstDownload w l).2 = true := by
  intro l hl
  cases l with
  | nil => exact absurd rfl hl
  | cons u us => simp [firstDownload, hc u]

theorem allOk_zip {w : World} {p : Proc} {rn ow dn : String} {br : Option String}
    (hok : AllOk w) (hp : p.exited = none) :
    (ensureZipRepoP w p rn ow dn br).exited = none := by
  by_cases hdn : dn ∈ p.fs.dirs
  · rw [ensureZip_skip hp hdn]
    exact hp
  · have h1 : (firstDownload w (candidateUrls rn ow br)).2 = true :=
      firstDownload_true hok.1 candidateUrls_ne_nil
    simp [ensureZipRepoP, hp, hdn, h1, hok.2.1 dn, hok.2.2.1 dn]

theorem allOk_live {w : World} {p : Proc} {rn : String}
    (hok : AllOk w) (hp : p.exited = none) :
    (ensureLiveRepoP w p rn).exited = none := by
  by_cases hg : rn ∈ p.fs.git
  · rw [ensureLive_skip hp hg]
    exact hp
  · simp [ensureLiveRepoP, hp, hg, hok.2.2.2.1 rn]

theorem allOk_npm {w : World} {p : Proc} {n : String}
    (hok : AllOk w) (hp : p.exited = none) :
    (npmInstallIfNeededP w p n).exited = none := by
  by_cases h1 : n ∈ p.fs.dirs
  · by_cases h2 : hasPkgFile w p.fs n = true
    · by_cases h3 : n ∈ p.fs.nodeModules
      · simp [npmInstallIfNeededP, hp, h1, h2, h3]
      · simp [npmInstallIfNeededP, hp, h1, h2, h3, hok.2.2.2.2 n]
    · simp [npmInstallIfNeededP, hp, h1, h2]
  · simp [npmInstallIfNeededP, hp, h1]

theorem allOk_zipFold {w : World} {excl : List String} {p : Proc} {l : List String}
    (hok : AllOk w) (hp : p.exited = none) :
    (zipFold w excl p l).1.exited = none := by
  induction l generalizing p with
  | nil => exact hp
  | cons r rs ih =>
    simp only [zipFold]
    cases hr : excl.contains r with
    | true =>
      rw [if_pos rfl]
      exact ih hp
    | false =>
      rw [if_neg Bool.false_ne_true]
      have hA : (ensureZipRepoP w p r DEFAULT_OWNER r none).exited = none := allOk_zip hok hp
      simp only [hA]
      exact ih hA

theorem allOk_toolingStage {w : World} {p : Proc} (hok : AllOk w) (hp : p.exited = none) :
    (toolingStage w p).exited = none :=
  allOk_npm hok (allOk_zip hok (allOk_npm hok (allOk_zip hok hp)))

theorem allOk_simFetchStage {w : World} {p : Proc} {s lr : String}
    (hok : AllOk w) (hp : p.exited = none) :
    (simFetchStage w p s lr).exited = none := by
  unfold simFetchStage
  by_cases hne : lr ≠ s
  · rw [if_pos hne]
    exact allOk_zip hok hp
  · rw [if_neg hne]
    exact allOk_live hok hp

theorem allOk_liveStage {w : World} {p : Proc} {s lr : String} {d0 : List String}
    (hok : AllOk w) (hp : p.exited = none) :
    (liveStage w p s lr d0).1.exited = none := by
  simp only [liveStage]
  by_cases hne : lr ≠ s
  · rw [if_pos hne]
    exact allOk_live hok hp
  · rw [if_neg hne]
    exact hp

theorem allOk_addSimBody {w : World} {p0 : Proc} {s lr : String}
    (hok : AllOk w) (hp : p0.exited = none) :
    (addSimBody w p0 s lr).proc.exited = none := by
  simp only [addSimBody]
  exact allOk_zipFold hok
    (allOk_liveStage hok (allOk_simFetchStage hok (allOk_toolingStage hok hp)))

theorem allOk_addSim {w : World} {fs0 : FS} {m : Manifest} {s : String}
    (hok : AllOk w) (hs : s ≠ "") :
    (addSimP w fs0 m s).proc.exited = none := by
  simp only [addSimP]
  rw [if_neg hs]
  exact allOk_addSimBody hok rfl

end Umbrella

namespace Umbrella

theorem addSimBody_zipRepos {w : World} {p0 : Proc} {s lr : String}
    (hwf : p0.fs.WF)
    (h : (addSimBody w p0 s lr).proc.exited = none) :
    (addSimBody w p0 s lr).zipRepos =
      ((if lr ≠ s then (readSimPhetLibs (w.pkg lr)).1 else []).foldl jsSetAdd
        (jsSetOfList ((readCommonPhetLibs w.build).1 ++ (readSimPhetLibs (w.pkg s)).1))).filter
        (fun r =>
          !((jsSetOfList [CHIPPER, PERENNIAL_ALIAS, PERENNIAL_REPO, s, lr]).contains r)) := by
  simp only [addSimBody] at h ⊢
  set p4 := toolingStage w p0 with hp4def
  set p5 := simFetchStage w p4 s lr with hp5def
  have h6 : (liveStage w p5 s lr
      (jsSetOfList ((readCommonPhetLibs (buildFileAt w p4.fs)).1 ++
        (readSimPhetLibs (pkgFileAt w p5.fs s)).1))).1.exited = none :=
    zipFold_exited_none_of h
  have h5 : p5.exited = none := liveStage_exited_none_of h6
  have h4 : p4.exited = none := simFetchStage_exited_none_of h5
  have hwf4 : p4.fs.WF := toolingStage_WF hwf
  have hwf5 : p5.fs.WF := simFetchStage_WF hwf4
  have hch : CHIPPER ∈ p4.fs.dirs := toolingStage_chipper h4
  have hbuild : buildFileAt w p4.fs = w.build := by
    unfold buildFileAt
    rw [if_pos ((contains_iff _ _).mpr hch)]
  have hsim : s ∈ p5.fs.dirs := simFetchStage_post hwf4 h5
  have hpkgs : pkgFileAt w p5.fs s = w.pkg s := by
    unfold pkgFileAt
    rw [if_pos ((contains_iff _ _).mpr hsim)]
  rw [zipFold_zips h, liveStage_snd hwf5 h6, hbuild, hpkgs]

end Umbrella

namespace Umbrella

theorem contains_eq_false_iff (l : List String) (x : String) :
    l.contains x = false ↔ x ∉ l := by
  constructor
  · intro hf hmem
    rw [(contains_iff l x).mpr hmem] at hf
    exact Bool.noConfusion hf
  · intro hnm
    cases hc : l.contains x with
    | false => rfl
    | true => exact absurd ((contains_iff l x).mp hc) hnm

theorem addSim_zipRepos {w : World} {fs0 : FS} {m : Manifest} {s : String}
    (hwf : fs0.WF) (h : (addSimP w fs0 m s).proc.exited = none) :
    (addSimP w fs0 m s).zipRepos = expectedZipRepos w m s := by
  by_cases hs : s = ""
  · exfalso
    rw [hs] at h
    simp [addSimP] at h
  · simp only [addSimP] at h ⊢
    rw [if_neg hs] at h ⊢
    simp only [expectedZipRepos, liveListOf, commonList, simListOf, exclListOf, liveRepoOf]
    exact addSimBody_zipRepos hwf h

end Umbrella

namespace Umbrella

/-- Characterization of the snapshot set of a completed add-sim run: no
duplicates, and membership is exactly the three-way union minus the excluded
names. -/
theorem addSim_zipRepos_char (w : World) (fs0 : FS) (m : Manifest) (s : String)
    (hwf : fs0.WF) (h : (addSimP w fs0 m s).proc.exited = none) :
    (addSimP w fs0 m s).zipRepos.Nodup ∧
    ∀ r : String, r ∈ (addSimP w fs0 m s).zipRepos ↔
      ((r ∈ commonList w ∨ r ∈ simListOf w s ∨ r ∈ liveListOf w m s) ∧
        r ∉ [CHIPPER, PERENNIAL_ALIAS, PERENNIAL_REPO, s, liveRepoOf m s]) := by
  rw [addSim_zipRepos hwf h]
  constructor
  · exact List.Nodup.filter _ (nodup_foldl_jsSetAdd _ _ (nodup_jsSetOfList _))
  · intro r
    unfold expectedZipRepos
    rw [List.mem_filter]
    rw [mem_foldl_jsSetAdd]
    rw [mem_jsSetOfList]
    rw [List.mem_append]
    constructor
    · rintro ⟨hin, hpred⟩
      refine ⟨by tauto, ?_⟩
      have : (exclListOf m s).contains r = false := by
        cases hc : (exclListOf m s).contains r with
        | false => rfl
        | true => rw [hc] at hpred; exact Bool.noConfusion hpred
      rw [contains_eq_false_iff] at this
      unfold exclListOf at this
      rw [mem_jsSetOfList] at this
      exact this
    · rintro ⟨hin, hnot⟩
      refine ⟨by tauto, ?_⟩
      have : (exclListOf m s).contains r = false := by
        rw [contains_eq_false_iff]
        unfold exclListOf
        rw [mem_jsSetOfList]
        exact hnot
      rw [this]
      rfl

/-- C1 (amended): for every run of add-sim that reaches the end of its final
step on a well-formed workspace, the set of repositories acquired as
snapshots in that step is exactly the union of the common dependency list,
the sim dependency list, and — when the live repo of the sim differs from
the sim — the live-repo dependency list, minus the excluded names (the
tooling repos under all the names they are handled by: chipper,
perennial-alias, perennial; the sim itself; the live repo of the sim):
no name outside this set is acquired in that step, every name in it is
acquired exactly once, and order is irrelevant. -/
theorem C1_addSim_snapshot_set (w : World) (fs0 : FS) (m : Manifest) (s : String)
    (hwf : fs0.WF) (h : (addSimP w fs0 m s).proc.exited = none) :
    (addSimP w fs0 m s).zipRepos.Nodup ∧
    ∀ r : String, r ∈ (addSimP w fs0 m s).zipRepos ↔
      ((r ∈ commonList w ∨ r ∈ simListOf w s ∨ r ∈ liveListOf w m s) ∧
        r ∉ [CHIPPER, PERENNIAL_ALIAS, PERENNIAL_REPO, s, liveRepoOf m s]) :=
  addSim_zipRepos_char w fs0 m s hwf h

/-- C1 counterexample to the claim as stated: with a manifest mapping sim a
to live repo b, where b declares the dependency x while the common list and
the list of a are both empty, a completed add-sim run acquires x as a
snapshot in the final step even though x is outside the union of the common
list and the sim list. -/
theorem C1_counterexample :
    (addSimP liveDepWorld fsEmpty liveDepManifest "a").proc.exited = none ∧
    "x" ∈ (addSimP liveDepWorld fsEmpty liveDepManifest "a").zipRepos ∧
    "x" ∉ commonList liveDepWorld ∧ "x" ∉ simListOf liveDepWorld "a" := by
  decide

/-- Witness for C1: the amended statement applied to the concrete run of the
counterexample world, instantiated at the name x. -/
theorem C1_witness :
    (addSimP liveDepWorld fsEmpty liveDepManifest "a").zipRepos.Nodup ∧
    ("x" ∈ (addSimP liveDepWorld fsEmpty liveDepManifest "a").zipRepos ↔
      (("x" ∈ commonList liveDepWorld ∨ "x" ∈ simListOf liveDepWorld "a" ∨
        "x" ∈ liveListOf liveDepWorld liveDepManifest "a") ∧
        "x" ∉ [CHIPPER, PERENNIAL_ALIAS, PERENNIAL_REPO, "a",
          liveRepoOf liveDepManifest "a"])) :=
  ⟨(C1_addSim_snapshot_set liveDepWorld fsEmpty liveDepManifest "a"
      (by simp [FS.WF, fsEmpty]) (by decide)).1,
   (C1_addSim_snapshot_set liveDepWorld fsEmpty liveDepManifest "a"
      (by simp [FS.WF, fsEmpty]) (by decide)).2 "x"⟩

end Umbrella

namespace Umbrella

/-- C2: for every sim key not present in the loaded manifest, resolving the
key returns the synthesized entry — live repo equal to the key and an empty
dependency list — and logs the unrecognized-key warning; the operation is a
total function of the manifest and the key, so it never throws or fails. -/
theorem C2_resolve_default (m : Manifest) (k : String) (h : m.lookup k = none) :
    resolveSimConfig m k = ({ sim := k, liveRepo := k, deps := [] }, true) := by
  unfold resolveSimConfig
  rw [h]

/-- Witness for C2: resolving a key against the empty manifest synthesizes
the default entry and warns. -/
theorem C2_witness :
    resolveSimConfig [] "my-sim" =
      ({ sim := "my-sim", liveRepo := "my-sim", deps := [] }, true) :=
  C2_resolve_default [] "my-sim" rfl

/-- C4 evidence at the failing input: when every candidate URL fails for a
snapshot fetch of a repo that is absent locally, the process exits with code
1 and no directory is created at the destination, but the scratch directory
under the project root is NOT removed — the exit happens inside the try
block, so the cleanup of the finally block never executes, against the
documented scoped-cleanup intent of that block. -/
theorem C4_download_failure_eval :
    (ensureZipRepoP failDlWorld procEmpty "foo" "phetsims" "foo" none).exited = some 1 ∧
    "foo" ∉ (ensureZipRepoP failDlWorld procEmpty "foo" "phetsims" "foo" none).fs.dirs ∧
    (ensureZipRepoP failDlWorld procEmpty "foo" "phetsims" "foo" none).fs.tmp =
      [tmpName "foo"] := by
  decide

/-- C9: in the dev-session launcher, when the watcher child exits
signal-terminated by SIGTERM (reporting a null code, as a signal-terminated
child does) after the dev server was told to stop, the watcher exit handler
shuts the launcher down with status 0, not a non-zero status. -/
theorem C9_watch_sigterm_clean :
    Launcher.watchExitHandler none (some "SIGTERM") = some 0 := by
  decide

/-- C10 counterexample to the claim as stated: readInstalled returns a parsed
top-level array as-is, so a file holding a JSON array of numbers yields
entries that are not strings — consumers are not guaranteed a string array. -/
theorem C10_counterexample :
    readInstalled (InstFile.content (some (JVal.arr [JVal.num 1, JVal.num 2]))) =
      [JVal.num 1, JVal.num 2] ∧
    ¬(∀ v ∈ readInstalled (InstFile.content (some (JVal.arr [JVal.num 1, JVal.num 2]))),
        v.isStr = true) := by
  refine ⟨rfl, ?_⟩
  intro hall
  have h1 : (JVal.num 1).isStr = true :=
    hall (JVal.num 1) (List.mem_cons_self _ _)
  exact Bool.noConfusion h1

/-- C10 (amended): reading the persisted installed-set is total at the
public interface — an absent file, an unreadable file, unparseable JSON, and
JSON whose top-level value is not an array all yield the empty list and
never raise; a top-level array is returned as-is, so every consumer sees an
array, but its elements are whatever JSON values the file held and are not
validated to be strings. -/
theorem C10_readInstalled_total :
    readInstalled InstFile.absent = [] ∧
    readInstalled InstFile.unreadable = [] ∧
    readInstalled (InstFile.content none) = [] ∧
    (∀ xs, readInstalled (InstFile.content (some (JVal.arr xs))) = xs) ∧
    (∀ v : JVal, (∀ xs, v ≠ JVal.arr xs) →
      readInstalled (InstFile.content (some v)) = []) := by
  refine ⟨rfl, rfl, rfl, fun _ => rfl, ?_⟩
  intro v hv
  cases v with
  | arr xs => exact absurd rfl (hv xs)
  | null => rfl
  | bool b => rfl
  | num n => rfl
  | str s => rfl
  | obj f => rfl

/-- Witness for C10: a parsed non-array value yields the empty list. -/
theorem C10_witness :
    readInstalled (InstFile.content (some (JVal.num 5))) = [] :=
  C10_readInstalled_total.2.2.2.2 (JVal.num 5) (fun _ h => JVal.noConfusion h)

end Umbrella

namespace Umbrella

theorem runAllFatal_split (ok : String → Bool) (pre : List String) (r : String)
    (post : List String) (hpre : ∀ x ∈ pre, ok x = true) (hr : ok r = false) :
    runAllFatal ok (pre ++ r :: post) = (pre ++ [r], some 1) := by
  induction pre with
  | nil => simp [runAllFatal, hr]
  | cons a as ih =>
    have ha : ok a = true := hpre a (List.mem_cons_self a as)
    have hrest := ih (fun x hx => hpre x (List.mem_cons_of_mem a hx))
    simp [runAllFatal, ha, hrest]

/-- C5 counterexample to the claim as stated: with two live directories a
and b where the per-directory status command exits non-zero in a, the status
command visits only a and exits the whole process with code 1 — it does not
continue to the next directory b, because the shared run helper exits the
process on any non-zero status whether or not an error message was given. -/
theorem C5_counterexample :
    statusAll statusFailWorld fsTwoLive = (["a"], some 1) ∧
    findGitRepos fsTwoLive = ["a", "b"] := by
  decide

/-- C5 (amended): status behaves like pull and push — all three commands
treat a non-zero per-directory exit as fatal: when the version-controlled
directory list splits as earlier entries that succeed followed by one that
fails, each command visits exactly the earlier entries plus the failing one,
exits the process with code 1, and never visits the remaining directories. -/
theorem C5_all_commands_fatal (w : World) (fs : FS) (pre : List String) (r : String)
    (post : List String) (hsplit : findGitRepos fs = pre ++ r :: post) :
    ((∀ x ∈ pre, w.statusOk x = true) → w.statusOk r = false →
      statusAll w fs = (pre ++ [r], some 1)) ∧
    ((∀ x ∈ pre, w.pullOk x = true) → w.pullOk r = false →
      pullAll w fs = (pre ++ [r], some 1)) ∧
    ((∀ x ∈ pre, w.pushOk x = true) → w.pushOk r = false →
      pushAll w fs = (pre ++ [r], some 1)) := by
  refine ⟨?_, ?_, ?_⟩ <;> intro hpre hr
  · rw [statusAll, hsplit]
    exact runAllFatal_split _ pre r post hpre hr
  · rw [pullAll, hsplit]
    exact runAllFatal_split _ pre r post hpre hr
  · rw [pushAll, hsplit]
    exact runAllFatal_split _ pre r post hpre hr

/-- Witness for C5: the amended statement applied to the two-directory
workspace where the status command fails in the first directory. -/
theorem C5_witness :
    statusAll statusFailWorld fsTwoLive = (["a"], some 1) :=
  (C5_all_commands_fatal statusFailWorld fsTwoLive [] "a" ["b"] (by decide)).1
    (fun x hx => absurd hx (List.not_mem_nil x)) (by decide)

theorem ensureLive_post_git {w : World} {p : Proc} {rn : String}
    (h : (ensureLiveRepoP w p rn).exited = none) :
    rn ∈ (ensureLiveRepoP w p rn).fs.git := by
  have hp : p.exited = none := ensureLive_exited_none_of h
  by_cases hg : rn ∈ p.fs.git
  · rw [ensureLive_skip hp hg]
    exact hg
  · cases hc : w.cloneOk rn with
    | false => exfalso; simp [ensureLiveRepoP, hp, hg, hc] at h
    | true => simp [ensureLiveRepoP, hp, hg, hc]

/-- C6 counterexample to the claim as stated: ensureLive on a destination
that is present in snapshot form force-removes the existing directory before
cloning, so the acquirer does remove an existing destination directory. -/
theorem C6_counterexample :
    (ensureLiveRepoP allOkWorld procSnapFoo "foo").removed = ["foo"] ∧
    "foo" ∈ procSnapFoo.fs.dirs ∧ "foo" ∉ procSnapFoo.fs.git := by
  decide

/-- C6 (amended): a repository directory present under the workspace root is
in exactly one of the two forms — live (with version-control metadata) or
snapshot (without) — never both; ensureSnapshot never overwrites or removes
an existing destination directory in either form; ensureLive leaves a
live-form destination untouched, but force-removes an existing
snapshot-form destination before cloning over it. -/
theorem C6_forms_and_overwrites (w : World) (p : Proc) (n rn ow dn : String)
    (br : Option String) :
    (n ∈ p.fs.dirs →
      ((liveForm p.fs n ∨ snapshotForm p.fs n) ∧
        ¬(liveForm p.fs n ∧ snapshotForm p.fs n))) ∧
    (ensureZipRepoP w p rn ow dn br).removed = p.removed ∧
    (p.exited = none → rn ∈ p.fs.git → ensureLiveRepoP w p rn = p) ∧
    (p.exited = none → rn ∈ p.fs.dirs → rn ∉ p.fs.git →
      (ensureLiveRepoP w p rn).removed = p.removed ++ [rn]) := by
  refine ⟨?_, ensureZip_removed, ?_, ?_⟩
  · intro hn
    by_cases hg : n ∈ p.fs.git
    · exact ⟨Or.inl ⟨hn, hg⟩, fun hb => hb.2.2 hg⟩
    · exact ⟨Or.inr ⟨hn, hg⟩, fun hb => hg hb.1.2⟩
  · intro hp hg
    exact ensureLive_skip hp hg
  · intro hp hd hg
    exact ensureLive_removed_snapshot hp hd hg

/-- Witness for C6: the amended statement applied to the workspace holding
the snapshot-form directory foo. -/
theorem C6_witness :
    ((liveForm procSnapFoo.fs "foo" ∨ snapshotForm procSnapFoo.fs "foo") ∧
      ¬(liveForm procSnapFoo.fs "foo" ∧ snapshotForm procSnapFoo.fs "foo")) ∧
    (ensureLiveRepoP allOkWorld procSnapFoo "foo").removed = ["foo"] :=
  ⟨(C6_forms_and_overwrites allOkWorld procSnapFoo "foo" "foo" "phetsims" "foo" none).1
      (by decide),
   (C6_forms_and_overwrites allOkWorld procSnapFoo "foo" "foo" "phetsims" "foo" none).2.2.2
      rfl (by decide) (by decide)⟩

end Umbrella

namespace Umbrella

/-- C3: ensureSnapshot and ensureLive are idempotent. On a live process, a
call whose destination marker already exists is the identity — no external
invocation at all — with the early return decided purely from filesystem
state: destination-directory presence for snapshots, version-control
metadata presence for live repos. Consequently a second call right after a
first call that returned normally is the identity, so the pair performs the
external fetch at most once (each single call performs at most one
successful fetch). -/
theorem C3_ensure_idempotent (w : World) (p : Proc) (rn ow dn : String)
    (br : Option String) :
    (∀ q : Proc, q.exited = none → dn ∈ q.fs.dirs →
      ensureZipRepoP w q rn ow dn br = q) ∧
    (∀ q : Proc, q.exited = none → rn ∈ q.fs.git →
      ensureLiveRepoP w q rn = q) ∧
    (p.exited = none → (ensureZipRepoP w p rn ow dn br).exited = none →
      (ensureZipRepoP w (ensureZipRepoP w p rn ow dn br) rn ow dn br =
          ensureZipRepoP w p rn ow dn br ∧
        dn ∈ (ensureZipRepoP w p rn ow dn br).fs.dirs ∧
        (ensureZipRepoP w p rn ow dn br).fetched ≤ p.fetched + 1)) ∧
    ((ensureLiveRepoP w p rn).exited = none →
      (ensureLiveRepoP w (ensureLiveRepoP w p rn) rn = ensureLiveRepoP w p rn ∧
        rn ∈ (ensureLiveRepoP w p rn).fs.git ∧
        (ensureLiveRepoP w p rn).fetched ≤ p.fetched + 1)) := by
  refine ⟨fun q hq hd => ensureZip_skip hq hd,
          fun q hq hg => ensureLive_skip hq hg, ?_, ?_⟩
  · intro _ h1
    have hdn := ensureZip_post h1
    exact ⟨ensureZip_skip h1 hdn, hdn, ensureZip_fetched_le⟩
  · intro h1
    have hg := ensureLive_post_git h1
    exact ⟨ensureLive_skip h1 hg, hg, ensureLive_fetched_le⟩

/-- Witness for C3: the double calls collapse on a concrete fresh workspace
where both acquisitions succeed. -/
theorem C3_witness :
    ensureZipRepoP allOkWorld
        (ensureZipRepoP allOkWorld procEmpty "foo" "phetsims" "foo" none)
        "foo" "phetsims" "foo" none =
      ensureZipRepoP allOkWorld procEmpty "foo" "phetsims" "foo" none ∧
    ensureLiveRepoP allOkWorld (ensureLiveRepoP allOkWorld procEmpty "bar") "bar" =
      ensureLiveRepoP allOkWorld procEmpty "bar" :=
  ⟨((C3_ensure_idempotent allOkWorld procEmpty "foo" "phetsims" "foo" none).2.2.1
      rfl (by decide)).1,
   ((C3_ensure_idempotent allOkWorld procEmpty "bar" "phetsims" "bar" none).2.2.2
      (by decide)).1⟩

/-- C7: remove-sim followed by list-sims never lists the removed key — the
rewritten installed-set is the deduplicated sort of the filtered list, which
cannot contain the key — and the prune step never deletes a workspace-root
subdirectory whose name is in the required set recomputed from the remaining
installed sims, whether or not the removed sim referenced it. -/
theorem C7_remove_prune (w : World) (fs : FS) (installed : List String) (key d : String) :
    JVal.str key ∉ listSims (writeInstalledFile (removeSimNext installed key)) ∧
    (d ∈ computeRequiredRepos w fs (removeSimNext installed key) →
      d ∉ (pruneRepos fs (computeRequiredRepos w fs (removeSimNext installed key))).deleted) := by
  constructor
  · intro hmem
    have hmap : JVal.str key ∈ (writeInstalled (removeSimNext installed key)).map JVal.str :=
      hmem
    rw [List.mem_map] at hmap
    obtain ⟨a, ha, hae⟩ := hmap
    have hak : a = key := by injection hae
    subst hak
    unfold writeInstalled jsSortStrings at ha
    rw [List.mem_mergeSort, mem_jsSetOfList] at ha
    unfold removeSimNext at ha
    rw [List.mem_filter] at ha
    simp at ha
  · intro hreq hdel
    unfold pruneRepos at hdel
    simp only at hdel
    rw [List.mem_filter] at hdel
    cases hc : (computeRequiredRepos w fs (removeSimNext installed key)).contains d with
    | true =>
      have := hdel.2
      rw [hc] at this
      exact Bool.noConfusion this
    | false =>
      rw [contains_eq_false_iff] at hc
      exact hc hreq

/-- Witness for C7: removing sim a from the installed pair never lists a
again, and chipper — in the recomputed required set — is not pruned. -/
theorem C7_witness :
    JVal.str "a" ∉ listSims (writeInstalledFile (removeSimNext ["a", "b"] "a")) ∧
    "chipper" ∉ (pruneRepos fsTwoLive
      (computeRequiredRepos allOkWorld fsTwoLive (removeSimNext ["a", "b"] "a"))).deleted :=
  ⟨(C7_remove_prune allOkWorld fsTwoLive ["a", "b"] "a" "chipper").1,
   (C7_remove_prune allOkWorld fsTwoLive ["a", "b"] "a" "chipper").2 (by decide)⟩

/-- C8: when chipper/build.json is missing or malformed, reading the common
dependency list logs a warning and degrades to the empty list without
raising; and with a malformed build file, on a well-formed workspace where
every external invocation succeeds, add-sim still completes — no process
exit — and its final snapshot step draws only on the dependency list of the
sim (and, when distinct, of its live repo). -/
theorem C8_malformed_build (w : World) (fs0 : FS) (m : Manifest) (s : String)
    (hok : AllOk w) (hb : w.build = ConfigFile.malformed) (hwf : fs0.WF) (hs : s ≠ "") :
    readCommonPhetLibs ConfigFile.malformed = ([], true) ∧
    readCommonPhetLibs ConfigFile.absent = ([], true) ∧
    (addSimP w fs0 m s).proc.exited = none ∧
    ∀ r : String, r ∈ (addSimP w fs0 m s).zipRepos ↔
      ((r ∈ simListOf w s ∨ r ∈ liveListOf w m s) ∧
        r ∉ [CHIPPER, PERENNIAL_ALIAS, PERENNIAL_REPO, s, liveRepoOf m s]) := by
  have hexit : (addSimP w fs0 m s).proc.exited = none := allOk_addSim hok hs
  refine ⟨rfl, rfl, hexit, ?_⟩
  intro r
  have hch := (addSim_zipRepos_char w fs0 m s hwf hexit).2 r
  have hcommon : commonList w = [] := by
    rw [commonList, hb]
    rfl
  rw [hcommon] at hch
  simpa using hch

/-- Witness for C8: with a malformed build file and the sim my-sim declaring
the single dependency dep1, add-sim completes and dep1 is acquired. -/
theorem C8_witness :
    readCommonPhetLibs ConfigFile.malformed = ([], true) ∧
    (addSimP malformedBuildWorld fsEmpty [] "my-sim").proc.exited = none ∧
    ("dep1" ∈ (addSimP malformedBuildWorld fsEmpty [] "my-sim").zipRepos ↔
      (("dep1" ∈ simListOf malformedBuildWorld "my-sim" ∨
        "dep1" ∈ liveListOf malformedBuildWorld [] "my-sim") ∧
        "dep1" ∉ [CHIPPER, PERENNIAL_ALIAS, PERENNIAL_REPO, "my-sim",
          liveRepoOf [] "my-sim"])) :=
  ⟨(C8_malformed_build malformedBuildWorld fsEmpty [] "my-sim"
      ⟨fun _ => rfl, fun _ => rfl, fun _ => rfl, fun _ => rfl, fun _ => rfl⟩
      rfl (by simp [FS.WF, fsEmpty]) (by decide)).1,
   (C8_malformed_build malformedBuildWorld fsEmpty [] "my-sim"
      ⟨fun _ => rfl, fun _ => rfl, fun _ => rfl, fun _ => rfl, fun _ => rfl⟩
      rfl (by simp [FS.WF, fsEmpty]) (by decide)).2.2.1,
   (C8_malformed_build malformedBuildWorld fsEmpty [] "my-sim"
      ⟨fun _ => rfl, fun _ => rfl, fun _ => rfl, fun _ => rfl, fun _ => rfl⟩
      rfl (by simp [FS.WF, fsEmpty]) (by decide)).2.2.2 "dep1"⟩

end Umbrella
